import Mathlib

/-!
# Foundry — verification of the store, webhook, scheduler and agent pipeline

Shallow embedding of the `foundry` continuous-integration orchestrator
(crates `foundryd`, `foundry-core`, `foundry-agent`).  The transactional
store is modelled as an explicit state (`DBState`); each SQL primitive of
`crates/foundryd/src/db.rs` becomes a pure function on that state, mirroring
the semantics of the query it embeds.  Machine integers (`i64`, job ids,
timestamps) are modelled as `Nat`; UUID claim tokens are opaque `Nat`s;
SQL `NULL`able columns are `Option`s.
-/

namespace Foundry

/-- `job.status` enum: `queued | running | success | failed` (schema `job_status`). -/
inductive JobStatus where
  | queued
  | running
  | success
  | failed
deriving DecidableEq, Repr

/-- One row of the `job` table.  Only the columns consulted by the
operations under verification are modelled (the table also carries many
denormalized commit/sender columns that no query under study reads back). -/
structure JobRow where
  id : Nat
  repoId : Nat
  createdAt : Nat
  status : JobStatus
  gitSha : String
  gitRef : String
  triggerType : String
  claimedBy : Option String := none
  claimToken : Option Nat := none
  startedAt : Option Nat := none
  finishedAt : Option Nat := none
  metricsJson : Option String := none
  commitMessage : Option String := none
  prNumber : Option Nat := none
  baseRef : Option String := none
  scheduledJobId : Option Nat := none
deriving DecidableEq, Repr

/-- One row of the `repo` table (columns used by the studied queries). -/
structure RepoRow where
  id : Nat
  owner : String
  name : String
  cloneUrl : String
  isPrivate : Bool := false
  defaultBranch : Option String := none
  defaultImage : String := "ubuntu:latest"
  language : Option String := none
  description : Option String := none
  githubId : Option Nat := none
  fullName : Option String := none
  htmlUrl : Option String := none
  sshUrl : Option String := none
  triggersBranches : Option (List String) := none
  triggersPullRequests : Option Bool := none
  triggersPrTargetBranches : Option (List String) := none
deriving DecidableEq, Repr

/-- One row of the append-only `job_log` table; list order models the
server-assigned monotone `ts` column (`ORDER BY ts ASC` = insertion order). -/
structure LogRow where
  jobId : Nat
  line : String
deriving DecidableEq, Repr

/-- One row of the `scheduled_job` table. -/
structure ScheduledRow where
  id : Nat
  repoId : Nat
  cronExpression : String
  branch : Option String := none
  timezone : Option String := none
  enabled : Bool := true
  lastRunAt : Option Nat := none
  nextRunAt : Option Nat := none
deriving DecidableEq, Repr

/-- The transactional store: the tables reachable from the studied
operations.  (The `job_commit` and `webhook_event` archive tables are not
consulted by any claim and are omitted.) -/
structure DBState where
  repos : List RepoRow := []
  jobs : List JobRow := []
  logs : List LogRow := []
  scheds : List ScheduledRow := []
deriving DecidableEq, Repr

/-- The joined row `claim_job` returns to the agent
(`foundry-core/src/types.rs`, `ClaimedJob`). -/
structure ClaimedJob where
  id : Nat
  repoId : Nat
  repoOwner : String
  repoName : String
  cloneUrl : String
  gitSha : String
  gitRef : String
  image : String
  claimToken : Nat
deriving DecidableEq, Repr

/-- Inputs of one `claim_job` call: the caller's agent id, the fresh
`Uuid::new_v4()` claim token minted at the top of the function, and the
transaction's `now()`. -/
structure ClaimCall where
  agent : String
  token : Nat
  now : Nat
deriving DecidableEq, Repr

/-- `ORDER BY created_at ASC ... LIMIT 1` fold step: keep the earlier row
(first row wins a tie, matching a stable scan). -/
def olderOf (a b : JobRow) : JobRow :=
  if b.createdAt < a.createdAt then b else a

/-- The inner `SELECT id FROM job WHERE status = 'queued' ORDER BY
created_at ASC FOR UPDATE SKIP LOCKED LIMIT 1` of `claim_job`
(`db.rs:claim_job`).  The skip-lock serializes concurrent callers, so the
selection is modelled as a deterministic pick over the current snapshot. -/
def selectOldestQueued (jobs : List JobRow) : Option JobRow :=
  match jobs.filter (fun j => j.status == JobStatus.queued) with
  | [] => none
  | j :: rest => some (rest.foldl olderOf j)

/-- The `UPDATE ... SET status='running', started_at=now(), claimed_by=$1,
claim_token=$2 WHERE id = <selected>` of `claim_job`'s CTE. -/
def markClaimed (c : ClaimCall) (selId : Nat) (jobs : List JobRow) : List JobRow :=
  jobs.map fun r =>
    if r.id == selId then
      { r with status := JobStatus.running, startedAt := some c.now,
               claimedBy := some c.agent, claimToken := some c.token }
    else r

/-- `db.rs:claim_job`: one transaction that claims the oldest queued job and
joins with `repo` to build the `ClaimedJob` payload.  Note that the CTE's
`UPDATE` runs even when the final `JOIN repo` finds no repo row, in which
case the call returns no `ClaimedJob` (modelled faithfully). -/
def claimJob (s : DBState) (c : ClaimCall) : Option ClaimedJob × DBState :=
  match selectOldestQueued s.jobs with
  | none => (none, s)
  | some j =>
      ((s.repos.find? (fun r => r.id == j.repoId)).map (fun repo =>
         { id := j.id, repoId := j.repoId, repoOwner := repo.owner,
           repoName := repo.name, cloneUrl := repo.cloneUrl,
           gitSha := j.gitSha, gitRef := j.gitRef,
           image := repo.defaultImage, claimToken := c.token }),
       { s with jobs := markClaimed c j.id s.jobs })

/-- A serialized run of `claim_job` calls (the skip-locked transaction makes
every interleaving equivalent to some serial order), collecting the
`ClaimedJob`s that were returned. -/
def claimMany (s : DBState) : List ClaimCall → List ClaimedJob × DBState
  | [] => ([], s)
  | c :: cs =>
      let p := claimJob s c
      let q := claimMany p.2 cs
      (match p.1 with
       | some cj => cj :: q.1
       | none => q.1, q.2)

/-- The `WHERE id = $1 AND claim_token = $2 AND status = 'running'` guard
shared by `append_log` and `finish_job`. -/
def runningGuard (jobId tok : Nat) (j : JobRow) : Bool :=
  j.id == jobId && j.claimToken == some tok && j.status == JobStatus.running

/-- `db.rs:append_log`: `INSERT INTO job_log (job_id, line) SELECT $1,$3
WHERE EXISTS (SELECT 1 FROM job WHERE id=$1 AND claim_token=$2 AND
status='running')`; the returned `Bool` is `rows_affected() > 0`. -/
def appendLog (s : DBState) (jobId tok : Nat) (line : String) : Bool × DBState :=
  let inserted : List LogRow :=
    if s.jobs.any (runningGuard jobId tok) then [{ jobId := jobId, line := line }] else []
  (inserted.length > 0, { s with logs := s.logs ++ inserted })

/-- `db.rs:finish_job`: `UPDATE job SET status=$3, finished_at=now() WHERE
id=$1 AND claim_token=$2 AND status='running'`; returns
`rows_affected() > 0`. -/
def finishJob (s : DBState) (jobId tok : Nat) (success : Bool) (now : Nat) :
    Bool × DBState :=
  let newStatus := if success then JobStatus.success else JobStatus.failed
  let affected := s.jobs.countP (fun j => runningGuard jobId tok j)
  let jobs' := s.jobs.map fun j =>
    if runningGuard jobId tok j then { j with status := newStatus, finishedAt := some now }
    else j
  (affected > 0, { s with jobs := jobs' })

/-- `db.rs:store_metrics`: `UPDATE job SET metrics_json=$3 WHERE id=$1 AND
claim_token=$2` — note the guard checks only id and token, not the status. -/
def storeMetrics (s : DBState) (jobId tok : Nat) (metrics : String) : Bool × DBState :=
  let affected := s.jobs.countP (fun j => j.id == jobId && j.claimToken == some tok)
  let jobs' := s.jobs.map fun j =>
    if j.id == jobId && j.claimToken == some tok then { j with metricsJson := some metrics }
    else j
  (affected > 0, { s with jobs := jobs' })

/-- `db.rs:get_logs`: token must match the job row (any status), then the
job's log lines are joined with newlines in `ts` order. -/
def getLogs (s : DBState) (jobId tok : Nat) : Option String :=
  if s.jobs.any (fun j => j.id == jobId && j.claimToken == some tok) then
    some (String.intercalate "\n"
      (((s.logs.filter (fun l => l.jobId == jobId)).map (fun l => l.line))))
  else none

/-- `db.rs:should_build_branch`: `COALESCE(triggers_branches,
ARRAY['main','master'])` membership, defaulting when the repo row is
absent. -/
def shouldBuildBranch (s : DBState) (owner name branch : String) : Bool :=
  let branches :=
    match s.repos.find? (fun r => r.owner == owner && r.name == name) with
    | some r => r.triggersBranches.getD ["main", "master"]
    | none => ["main", "master"]
  branches.any (fun b => b == branch)

/-- `db.rs:should_build_pr`: PRs disabled → false; configured target list →
membership; otherwise / absent repo → true. -/
def shouldBuildPr (s : DBState) (owner name targetBranch : String) : Bool :=
  match s.repos.find? (fun r => r.owner == owner && r.name == name) with
  | some r =>
      if !(r.triggersPullRequests.getD true) then false
      else
        match r.triggersPrTargetBranches with
        | some targets => targets.any (fun b => b == targetBranch)
        | none => true
  | none => true

/-- Fresh serial id for an insert into `job` (Postgres sequence). -/
def freshJobId (s : DBState) : Nat :=
  (s.jobs.foldl (fun m j => max m j.id) 0) + 1

/-- Fresh serial id for an insert into `repo`. -/
def freshRepoId (s : DBState) : Nat :=
  (s.repos.foldl (fun m r => max m r.id) 0) + 1

/-- `str::strip_prefix` on character lists: `some rest` iff the input is
the marker followed by `rest` (Rust strings are byte slices; for the ASCII
markers involved, characters and bytes coincide). -/
def stripPre : List Char → List Char → Option (List Char)
  | [], l => some l
  | _ :: _, [] => none
  | p :: ps, c :: cs => if c = p then stripPre ps cs else none

/-- `str::starts_with`, derived from `strip_prefix`. -/
def startsWithStr (pre s : String) : Bool := (stripPre pre.toList s.toList).isSome

/-- `db.rs:RepoData` — the repository fields extracted from a webhook for
`upsert_repo`. -/
structure RepoData where
  owner : String
  name : String
  cloneUrl : String
  githubId : Option Nat := none
  fullName : Option String := none
  htmlUrl : Option String := none
  sshUrl : Option String := none
  isPrivate : Bool := false
  defaultBranch : Option String := none
  language : Option String := none
  description : Option String := none
deriving DecidableEq, Repr

/-- `db.rs:upsert_repo`: `INSERT ... ON CONFLICT (owner, name) DO UPDATE`
with `clone_url`/`private` overwriting and the remaining fields merged
`COALESCE(EXCLUDED.x, repo.x)`; returns the row id. -/
def upsertRepo (s : DBState) (d : RepoData) : Nat × DBState :=
  match s.repos.find? (fun r => r.owner == d.owner && r.name == d.name) with
  | some r =>
      let r' : RepoRow :=
        { r with cloneUrl := d.cloneUrl,
                 githubId := d.githubId.orElse (fun _ => r.githubId),
                 fullName := d.fullName.orElse (fun _ => r.fullName),
                 htmlUrl := d.htmlUrl.orElse (fun _ => r.htmlUrl),
                 sshUrl := d.sshUrl.orElse (fun _ => r.sshUrl),
                 isPrivate := d.isPrivate,
                 defaultBranch := d.defaultBranch.orElse (fun _ => r.defaultBranch),
                 language := d.language.orElse (fun _ => r.language),
                 description := d.description.orElse (fun _ => r.description) }
      (r.id, { s with repos := s.repos.map (fun x => if x.id == r.id then r' else x) })
  | none =>
      let newId := freshRepoId s
      (newId, { s with repos := s.repos ++
        [{ id := newId, owner := d.owner, name := d.name, cloneUrl := d.cloneUrl,
           isPrivate := d.isPrivate, defaultBranch := d.defaultBranch,
           language := d.language, description := d.description,
           githubId := d.githubId, fullName := d.fullName,
           htmlUrl := d.htmlUrl, sshUrl := d.sshUrl }] })

/-- `github.rs:Owner` (the field the ingest reads). -/
structure Owner where
  login : String
deriving DecidableEq, Repr

/-- `github.rs:Repository`, trimmed to the fields the ingest consults. -/
structure Repository where
  githubId : Nat
  name : String
  fullName : String
  isPrivate : Bool
  owner : Owner
  htmlUrl : String
  cloneUrl : String
  sshUrl : String
  defaultBranch : String
  language : Option String := none
  description : Option String := none
deriving DecidableEq, Repr

/-- `github.rs:PushEvent`, trimmed to the fields `handle_push_event` and the
modelled job columns consult. -/
structure PushEvent where
  gitRef : String
  before : String
  after : String
  created : Bool := false
  deleted : Bool := false
  forced : Bool := false
  headCommitMessage : Option String := none
  repository : Repository
deriving DecidableEq, Repr

/-- `db.rs:RepoData::from_push_event`. -/
def RepoData.fromPushEvent (e : PushEvent) : RepoData :=
  { owner := e.repository.owner.login, name := e.repository.name,
    cloneUrl := e.repository.cloneUrl, githubId := some e.repository.githubId,
    fullName := some e.repository.fullName, htmlUrl := some e.repository.htmlUrl,
    sshUrl := some e.repository.sshUrl, isPrivate := e.repository.isPrivate,
    defaultBranch := some e.repository.defaultBranch,
    language := e.repository.language, description := e.repository.description }

/-- `db.rs:enqueue_job`: inserts one `queued` row with `trigger_type` from
the push data (`'push'`); `git_sha` is the push's `after` SHA. -/
def enqueueJob (s : DBState) (repoId : Nat) (e : PushEvent) (now : Nat) :
    Nat × DBState :=
  let id := freshJobId s
  (id, { s with jobs := s.jobs ++
    [{ id := id, repoId := repoId, createdAt := now, status := JobStatus.queued,
       gitSha := e.after, gitRef := e.gitRef, triggerType := "push",
       commitMessage := e.headCommitMessage }] })

/-- `webhook.rs:handle_push_event`'s `ref_name = strip "refs/heads/"`
(`strip_prefix(..).unwrap_or(&push.git_ref)`). -/
def refName (gitRef : String) : String :=
  match stripPre ("refs/heads/".toList) gitRef.toList with
  | some rest => String.mk rest
  | none => gitRef

/-- `webhook.rs:handle_push_event` (after signature check and archive):
drop branch deletions; ignore pushes whose branch is not literally `main`
or `master` (`ref_name != "main" && ref_name != "master"` in the source —
the stored per-repo filter is not consulted); otherwise upsert the repo
and enqueue a push job.  Result is the HTTP status and the new store. -/
def handlePushEvent (s : DBState) (e : PushEvent) (now : Nat) : Nat × DBState :=
  if e.deleted then (200, s)
  else
    let rn := refName e.gitRef
    if rn ≠ "main" ∧ rn ≠ "master" then (200, s)
    else
      let u := upsertRepo s (RepoData.fromPushEvent e)
      (200, (enqueueJob u.2 u.1 e now).2)

/-- `github.rs:PullRequestRef` (fields the ingest reads). -/
structure PullRequestRef where
  gitRef : String
  sha : String
deriving DecidableEq, Repr

/-- `github.rs:PullRequest`, trimmed. -/
structure PullRequest where
  number : Nat
  title : String
  draft : Bool
  head : PullRequestRef
  base : PullRequestRef
deriving DecidableEq, Repr

/-- `github.rs:PullRequestEvent`, trimmed. -/
structure PullRequestEvent where
  action : String
  pullRequest : PullRequest
  repository : Repository
deriving DecidableEq, Repr

/-- `github.rs:PullRequestEvent::should_build`: action ∈
`{opened, synchronize, reopened}` and the PR is not a draft. -/
def prShouldBuild (e : PullRequestEvent) : Bool :=
  (e.action == "opened" || e.action == "synchronize" || e.action == "reopened")
    && !e.pullRequest.draft

/-- The job row `enqueue_pr_job` inserts: `queued`, `trigger_type =
'pull_request'`, `git_sha` = head SHA, `git_ref = refs/pull/<n>/head`
(built in `PullRequestEventData::from_pr_event`), the PR title doubling as
the commit message. -/
def prJobRowOf (s : DBState) (repoId : Nat) (e : PullRequestEvent) (now : Nat) : JobRow :=
  { id := freshJobId s, repoId := repoId, createdAt := now, status := JobStatus.queued,
    gitSha := e.pullRequest.head.sha,
    gitRef := "refs/pull/" ++ toString e.pullRequest.number ++ "/head",
    triggerType := "pull_request",
    commitMessage := some e.pullRequest.title,
    prNumber := some e.pullRequest.number,
    baseRef := some e.pullRequest.base.gitRef }

/-- `db.rs:enqueue_pr_job`. -/
def enqueuePrJob (s : DBState) (repoId : Nat) (e : PullRequestEvent) (now : Nat) :
    Nat × DBState :=
  (freshJobId s, { s with jobs := s.jobs ++ [prJobRowOf s repoId e now] })

/-- The `RepoData` `handle_pull_request_event` builds from the PR payload. -/
def RepoData.fromPrEvent (e : PullRequestEvent) : RepoData :=
  { owner := e.repository.owner.login, name := e.repository.name,
    cloneUrl := e.repository.cloneUrl, githubId := some e.repository.githubId,
    fullName := some e.repository.fullName, htmlUrl := some e.repository.htmlUrl,
    sshUrl := some e.repository.sshUrl, isPrivate := e.repository.isPrivate,
    defaultBranch := some e.repository.defaultBranch,
    language := e.repository.language, description := e.repository.description }

/-- `webhook.rs:handle_pull_request_event` (after signature check and
archive): gate on `should_build`, then unconditionally `upsert_repo` and
`enqueue_pr_job` — no per-repo PR trigger filter is consulted. -/
def handlePullRequestEvent (s : DBState) (e : PullRequestEvent) (now : Nat) :
    Nat × DBState :=
  if !prShouldBuild e then (200, s)
  else
    let u := upsertRepo s (RepoData.fromPrEvent e)
    (200, (enqueuePrJob u.2 u.1 e now).2)

/-- The scheduler tick's due filter (`scheduler.rs:check_and_run_scheduled_jobs`):
`enabled = TRUE AND (next_run_at IS NULL OR next_run_at <= $1)`. -/
def isDue (now : Nat) (r : ScheduledRow) : Bool :=
  r.enabled &&
    (match r.nextRunAt with
     | none => true
     | some t => t ≤ now)

/-- `scheduler.rs:enqueue_scheduled_job`: looks up the repo (error, logged
and skipped by the tick, when absent), resolves the branch
(`scheduled.branch`, else the repo's default branch, else `"main"`), and
inserts a `queued` job with `git_sha = 'HEAD'` (the literal in the
`INSERT`), `git_ref = refs/heads/<branch>`, `trigger_type = 'manual'`. -/
def enqueueScheduledJob (s : DBState) (sched : ScheduledRow) (now : Nat) : DBState :=
  match s.repos.find? (fun r => r.id == sched.repoId) with
  | none => s
  | some repo =>
      let branch := sched.branch.getD (repo.defaultBranch.getD "main")
      { s with jobs := s.jobs ++
        [{ id := freshJobId s, repoId := sched.repoId, createdAt := now,
           status := JobStatus.queued, gitSha := "HEAD",
           gitRef := "refs/heads/" ++ branch, triggerType := "manual",
           scheduledJobId := some sched.id,
           commitMessage := some ("Scheduled build: " ++ sched.cronExpression) }] }

/-- The body of the scheduler tick's per-entry loop
(`scheduler.rs:check_and_run_scheduled_jobs`): enqueue the synthetic job
(failures logged and skipped), then — only when `Schedule::from_str`
succeeds and `schedule.upcoming(Utc).next()` yields an occurrence — update
`{last_run_at := now, next_run_at := next}`.  The cron library is
external; its parse-and-next-occurrence composite is the parameter
`cronNext` (`none` models both an unparseable expression and one with no
remaining future occurrence, e.g. a year-restricted cron whose fires are
exhausted). -/
def tickStep (cronNext : String → Nat → Option Nat) (now : Nat) (st : DBState)
    (sched : ScheduledRow) : DBState :=
  let st1 := enqueueScheduledJob st sched now
  match cronNext sched.cronExpression now with
  | some next =>
      { st1 with scheds := st1.scheds.map fun r =>
          if r.id == sched.id then
            { r with lastRunAt := some now, nextRunAt := some next }
          else r }
  | none => st1

/-- One scheduler tick at instant `now`: read the due entries from the
current snapshot and run the per-entry loop over them. -/
def schedulerTick (cronNext : String → Nat → Option Nat) (s : DBState) (now : Nat) :
    DBState :=
  (s.scheds.filter (isDue now)).foldl (tickStep cronNext now) s

/-- `foundry-core/src/config.rs:StageCondition`. -/
inductive StageCondition where
  | always
  | onSuccess
  | onFailure
  | onPr
  | onPush
deriving DecidableEq, Repr

/-- `foundry-core/src/config.rs:StageConfig`, trimmed to the fields
`run_stages`' control flow consults (image/timeout/env/depends_on are
passed through to the container runtime, which is abstracted by the
execution oracle below). -/
structure StageConfig where
  name : String
  command : String
  allowFailure : Bool := false
  condition : Option StageCondition := none
deriving DecidableEq, Repr

/-- Outcome of one stage as recorded in `StageMetrics.status`. -/
inductive StageStatus where
  | success
  | failed
  | skipped
deriving DecidableEq, Repr

/-- One entry of the stage-metrics list built by `run_stages`. -/
structure StageRecord where
  name : String
  status : StageStatus
deriving DecidableEq, Repr

/-- The `should_run` computation of `docker.rs:run_stages` from the stage's
condition, the running `any_failed` flag and the job's `git_ref`. -/
def stageShouldRun (gitRef : String) (anyFailed : Bool) (cond : Option StageCondition) :
    Bool :=
  match cond with
  | some StageCondition.always => true
  | some StageCondition.onFailure => anyFailed
  | some StageCondition.onSuccess => !anyFailed
  | none => !anyFailed
  | some StageCondition.onPr => startsWithStr "refs/pull/" gitRef
  | some StageCondition.onPush => !(startsWithStr "refs/pull/" gitRef)

/-- The stage loop of `docker.rs:run_stages`.  `exec` abstracts
`run_container` (`true` = `Ok(true)`; `false` = `Ok(false)` or `Err`, both
treated as stage failure by the source).  On a failure of a stage without
`allow_failure`, `any_failed` is set and — when the stage's condition is
`None` or `Some(OnSuccess)` — the loop `break`s, so the remaining stages
produce no records at all.  Returns the records in execution order and the
final `any_failed` flag. -/
def runStagesLoop (exec : StageConfig → Bool) (gitRef : String) :
    List StageConfig → Bool → List StageRecord × Bool
  | [], anyFailed => ([], anyFailed)
  | stage :: rest, anyFailed =>
      if !(stageShouldRun gitRef anyFailed stage.condition) then
        let p := runStagesLoop exec gitRef rest anyFailed
        ({ name := stage.name, status := StageStatus.skipped } :: p.1, p.2)
      else if exec stage then
        let p := runStagesLoop exec gitRef rest anyFailed
        ({ name := stage.name, status := StageStatus.success } :: p.1, p.2)
      else if stage.allowFailure then
        let p := runStagesLoop exec gitRef rest anyFailed
        ({ name := stage.name, status := StageStatus.failed } :: p.1, p.2)
      else if stage.condition = none ∨ stage.condition = some StageCondition.onSuccess then
        ([{ name := stage.name, status := StageStatus.failed }], true)
      else
        let p := runStagesLoop exec gitRef rest true
        ({ name := stage.name, status := StageStatus.failed } :: p.1, p.2)

/-- Result of `docker.rs:run_stages`: the stage records, the final
`any_failed`, and the overall verdict `ok` from the trailing
`if any_failed { bail!("Pipeline failed") }`. -/
structure PipelineResult where
  records : List StageRecord
  anyFailed : Bool
  ok : Bool
deriving DecidableEq, Repr

/-- `docker.rs:run_stages` driver: start with `any_failed = false`. -/
def runStages (exec : StageConfig → Bool) (gitRef : String)
    (stages : List StageConfig) : PipelineResult :=
  let p := runStagesLoop exec gitRef stages false
  { records := p.1, anyFailed := p.2, ok := !p.2 }

/-- `docker.rs:run_job` lines 77–82: scheduled-job sentinel detection.
Returns the `(clone_ref, is_scheduled)` pair: a `git_sha` beginning with
`"RESOLVE:"` yields the branch after the sentinel (the
`strip_prefix(..).unwrap_or("main")` fallback is unreachable under the
`starts_with` guard) and `true`; anything else is used as the SHA with
`false`. -/
def cloneRefAndScheduled (gitSha : String) : String × Bool :=
  match stripPre ("RESOLVE:".toList) gitSha.toList with
  | some branch => (String.mk branch, true)
  | none => (gitSha, false)

/-- `docker.rs:clone_repo` argument list: `clone --depth 50`, plus
`-b <branch>` exactly when cloning by branch, then the url and dest. -/
def gitCloneArgs (url shaOrBranch dest : String) (cloneByBranch : Bool) : List String :=
  (["clone", "--depth", "50"] ++ (if cloneByBranch then ["-b", shaOrBranch] else []))
    ++ [url, dest]

/-- `docker.rs:clone_repo`: the post-clone `git checkout <sha>` runs iff the
clone was not by-branch. -/
def performsCheckout (cloneByBranch : Bool) : Bool :=
  !cloneByBranch

/-! ## SHA-256 / HMAC-SHA256 and the webhook signature check

`foundry-core/src/github.rs:verify_github_signature` delegates the MAC to
the `hmac`/`sha2` crates and the hex parsing to the `hex` crate.  Those are
embedded here by their standard definitions (FIPS 180-4 SHA-256, RFC 2104
HMAC) and the `hex` crate's documented case-insensitive decoder.  Bytes are
`Nat`s; every byte-producing definition reduces modulo 256. -/

/-- 2^32, the word modulus of SHA-256. -/
def w32 : Nat := 4294967296

/-- Addition modulo 2^32. -/
def add32 (a b : Nat) : Nat := (a + b) % w32

/-- 32-bit right rotation. -/
def rotr (n x : Nat) : Nat := ((x >>> n) ||| (x <<< (32 - n))) % w32

/-- SHA-256 `Ch(x,y,z)`; the 32-bit complement is xor with `2^32 - 1`. -/
def shaCh (x y z : Nat) : Nat := (x &&& y) ^^^ ((x ^^^ 4294967295) &&& z)

/-- SHA-256 `Maj(x,y,z)`. -/
def shaMaj (x y z : Nat) : Nat := (x &&& y) ^^^ (x &&& z) ^^^ (y &&& z)

/-- SHA-256 `Σ0`. -/
def bigS0 (x : Nat) : Nat := rotr 2 x ^^^ rotr 13 x ^^^ rotr 22 x

/-- SHA-256 `Σ1`. -/
def bigS1 (x : Nat) : Nat := rotr 6 x ^^^ rotr 11 x ^^^ rotr 25 x

/-- SHA-256 `σ0`. -/
def smallS0 (x : Nat) : Nat := rotr 7 x ^^^ rotr 18 x ^^^ (x >>> 3)

/-- SHA-256 `σ1`. -/
def smallS1 (x : Nat) : Nat := rotr 17 x ^^^ rotr 19 x ^^^ (x >>> 10)

/-- The 64 SHA-256 round constants (decimal). -/
def shaK : List Nat :=
  [1116352408, 1899447441, 3049323471, 3921009573, 961987163, 1508970993,
   2453635748, 2870763221, 3624381080, 310598401, 607225278, 1426881987,
   1925078388, 2162078206, 2614888103, 3248222580, 3835390401, 4022224774,
   264347078, 604807628, 770255983, 1249150122, 1555081692, 1996064986,
   2554220882, 2821834349, 2952996808, 3210313671, 3336571891, 3584528711,
   113926993, 338241895, 666307205, 773529912, 1294757372, 1396182291,
   1695183700, 1986661051, 2177026350, 2456956037, 2730485921, 2820302411,
   3259730800, 3345764771, 3516065817, 3600352804, 4094571909, 275423344,
   430227734, 506948616, 659060556, 883997877, 958139571, 1322822218,
   1537002063, 1747873779, 1955562222, 2024104815, 2227730452, 2361852424,
   2428436474, 2756734187, 3204031479, 3329325298]

/-- Big-endian 8-byte encoding of the bit length. -/
def be64 (n : Nat) : List Nat :=
  [(n >>> 56) % 256, (n >>> 48) % 256, (n >>> 40) % 256, (n >>> 32) % 256,
   (n >>> 24) % 256, (n >>> 16) % 256, (n >>> 8) % 256, n % 256]

/-- Big-endian 4-byte decomposition of a 32-bit word. -/
def be32bytes (n : Nat) : List Nat :=
  [(n >>> 24) % 256, (n >>> 16) % 256, (n >>> 8) % 256, n % 256]

/-- SHA-256 padding: `0x80`, zeros to 56 mod 64, then the 64-bit bit
length.  `(119 - len % 64) % 64` is the zero count in `Nat` arithmetic. -/
def sha256Pad (msg : List Nat) : List Nat :=
  msg ++ [128] ++ List.replicate ((119 - msg.length % 64) % 64) 0
      ++ be64 (8 * msg.length)

/-- Big-endian word from a byte list (bytes normalized mod 256). -/
def be32of (l : List Nat) : Nat := l.foldl (fun acc b => acc * 256 + b % 256) 0

/-- The 16 initial schedule words of one 64-byte block. -/
def blockWords (block : List Nat) : List Nat :=
  (List.range 16).map (fun i => be32of ((block.drop (4 * i)).take 4))

/-- The padded message split into 64-byte blocks. -/
def sha256Blocks (padded : List Nat) : List (List Nat) :=
  (List.range (padded.length / 64)).map (fun i => (padded.drop (64 * i)).take 64)

/-- Message-schedule extension, most recent word first:
`W[t] = σ1(W[t-2]) + W[t-7] + σ0(W[t-15]) + W[t-16]`. -/
def scheduleRev (wrev : List Nat) : Nat → List Nat
  | 0 => wrev
  | n + 1 =>
      scheduleRev
        (add32 (add32 (smallS1 (wrev.getD 1 0)) (wrev.getD 6 0))
               (add32 (smallS0 (wrev.getD 14 0)) (wrev.getD 15 0)) :: wrev) n

/-- The 64 schedule words of a block. -/
def msgSchedule (block : List Nat) : List Nat :=
  (scheduleRev (blockWords block).reverse 48).reverse

/-- The eight 32-bit working variables of the compression function. -/
structure Hash8 where
  a : Nat
  b : Nat
  c : Nat
  d : Nat
  e : Nat
  f : Nat
  g : Nat
  h : Nat
deriving DecidableEq, Repr

/-- One SHA-256 round, consuming the pair `(W[t], K[t])`. -/
def roundStep (st : Hash8) (wk : Nat × Nat) : Hash8 :=
  let t1 := add32 st.h (add32 (bigS1 st.e) (add32 (shaCh st.e st.f st.g) (add32 wk.2 wk.1)))
  let t2 := add32 (bigS0 st.a) (shaMaj st.a st.b st.c)
  { a := add32 t1 t2, b := st.a, c := st.b, d := st.c,
    e := add32 st.d t1, f := st.e, g := st.f, h := st.g }

/-- Compression of one block into the chaining state. -/
def compress (st : Hash8) (block : List Nat) : Hash8 :=
  let r := ((msgSchedule block).zip shaK).foldl roundStep st
  { a := add32 st.a r.a, b := add32 st.b r.b, c := add32 st.c r.c,
    d := add32 st.d r.d, e := add32 st.e r.e, f := add32 st.f r.f,
    g := add32 st.g r.g, h := add32 st.h r.h }

/-- The SHA-256 initial hash value (decimal). -/
def shaH0 : Hash8 :=
  { a := 1779033703, b := 3144134277, c := 1013904242, d := 2773480762,
    e := 1359893119, f := 2600822924, g := 528734635, h := 1541459225 }

/-- SHA-256 of a byte list. -/
def sha256 (msg : List Nat) : List Nat :=
  let fin := (sha256Blocks (sha256Pad msg)).foldl compress shaH0
  be32bytes fin.a ++ be32bytes fin.b ++ be32bytes fin.c ++ be32bytes fin.d ++
  be32bytes fin.e ++ be32bytes fin.f ++ be32bytes fin.g ++ be32bytes fin.h

/-- RFC 2104 HMAC over SHA-256 (block size 64). -/
def hmacSha256 (key msg : List Nat) : List Nat :=
  let k0 := if key.length > 64 then sha256 key else key.map (fun b => b % 256)
  let kPad := k0 ++ List.replicate (64 - k0.length) 0
  sha256 ((kPad.map (fun b => b ^^^ 92)) ++ sha256 ((kPad.map (fun b => b ^^^ 54)) ++ msg))

/-- UTF-8 bytes of an ASCII string (the webhook secret and test bodies are
ASCII; for ASCII code points UTF-8 is the identity on `Char.toNat`). -/
def strBytes (s : String) : List Nat := s.toList.map Char.toNat

/-- One hex digit per the `hex` crate: `0-9`, `a-f` and `A-F` all decode
(the decoder is case-insensitive); anything else is rejected. -/
def hexDigitVal (c : Char) : Option Nat :=
  if '0' ≤ c ∧ c ≤ '9' then some (c.toNat - 48)
  else if 'a' ≤ c ∧ c ≤ 'f' then some (c.toNat - 87)
  else if 'A' ≤ c ∧ c ≤ 'F' then some (c.toNat - 55)
  else none

/-- `hex::decode`: pairs of hex digits to bytes; odd length or a non-hex
character fails. -/
def hexDecode : List Char → Option (List Nat)
  | [] => some []
  | [_] => none
  | c1 :: c2 :: rest =>
      match hexDigitVal c1, hexDigitVal c2, hexDecode rest with
      | some hi, some lo, some bs => some ((16 * hi + lo) :: bs)
      | _, _, _ => none

/-- Lowercase hex digit of a value below 16. -/
def lowerHexDigit (n : Nat) : Char :=
  if n < 10 then Char.ofNat (48 + n) else Char.ofNat (87 + n)

/-- Uppercase hex digit of a value below 16. -/
def upperHexDigit (n : Nat) : Char :=
  if n < 10 then Char.ofNat (48 + n) else Char.ofNat (55 + n)

/-- `hex::encode` (lowercase) of one byte. -/
def byteLowerHex (b : Nat) : List Char := [lowerHexDigit (b / 16), lowerHexDigit (b % 16)]

/-- Uppercase hex of one byte. -/
def byteUpperHex (b : Nat) : List Char := [upperHexDigit (b / 16), upperHexDigit (b % 16)]

/-- `hex::encode`: the canonical lowercase hex encoding of a byte list. -/
def lowerHex (bs : List Nat) : List Char := (bs.map byteLowerHex).flatten

/-- The uppercase hex encoding of a byte list. -/
def upperHex (bs : List Nat) : List Char := (bs.map byteUpperHex).flatten

/-- The `"sha256="` marker of the signature header. -/
def sigMarker : List Char := ['s', 'h', 'a', '2', '5', '6', '=']

/-- `github.rs:verify_github_signature`: strip `"sha256="`, `hex::decode`
the remainder, and compare the decoded bytes against
`HMAC-SHA256(secret, body)` (`mac.verify_slice`, a length-checked
constant-time equality). -/
def verifyGithubSignature (secret : String) (body : List Nat) (header : List Char) :
    Bool :=
  match stripPre sigMarker header with
  | none => false
  | some sigHex =>
      match hexDecode sigHex with
      | none => false
      | some sigBytes => sigBytes == hmacSha256 (strBytes secret) body

/-- `webhook.rs:github_webhook` authentication gate: a missing
`X-Hub-Signature-256` header is a 401 before `verify_github_signature` is
even called; otherwise acceptance is the verifier's verdict. -/
def githubWebhookAccepts (secret : String) (headerSig : Option (List Char))
    (body : List Nat) : Bool :=
  match headerSig with
  | none => false
  | some h => verifyGithubSignature secret body h

/-- No job row with id `J` is `queued` in `s` (after a claim of `J`, this
holds forever under further claims, which is the heart of lease mutual
exclusion). -/
def notQueuedIn (s : DBState) (J : Nat) : Prop :=
  ∀ j ∈ s.jobs, j.id = J → j.status ≠ JobStatus.queued

/-! ## Concrete fixtures for the end-to-end scenarios -/

/-- A repository row shared by the concrete scenarios. -/
def exRepo : RepoRow :=
  { id := 1, owner := "o", name := "r", cloneUrl := "https://host/o/r.git",
    defaultBranch := some "main" }

/-- A queued push job. -/
def exQueuedJob : JobRow :=
  { id := 10, repoId := 1, createdAt := 0, status := JobStatus.queued,
    gitSha := "abc123", gitRef := "refs/heads/main", triggerType := "push" }

/-- A second, younger queued job. -/
def exQueuedJob2 : JobRow := { exQueuedJob with id := 11, createdAt := 1 }

/-- Store with two queued jobs, as in scenario E2. -/
def exClaimState : DBState := { repos := [exRepo], jobs := [exQueuedJob, exQueuedJob2] }

/-- Agent A's claim call. -/
def exCallA : ClaimCall := { agent := "A", token := 100, now := 5 }

/-- Agent B's claim call. -/
def exCallB : ClaimCall := { agent := "B", token := 101, now := 6 }

/-- The job after agent A's claim. -/
def exRunningJob : JobRow :=
  { exQueuedJob with
    status := JobStatus.running, claimToken := some 100,
    claimedBy := some "A", startedAt := some 5 }

/-- Store with one running job held by A under token 100. -/
def exRunningState : DBState := { repos := [exRepo], jobs := [exRunningJob] }

/-- The job after a successful finish: terminal, token retained. -/
def exTerminalJob : JobRow :=
  { exRunningJob with status := JobStatus.success, finishedAt := some 9 }

/-- Store with one terminal job that retains its claim token. -/
def exTerminalState : DBState :=
  { repos := [exRepo], jobs := [exTerminalJob],
    logs := [{ jobId := 10, line := "hello" }] }

/-- Repo whose synced trigger filter builds only the `dev` branch. -/
def exDevRepo : RepoRow := { exRepo with triggersBranches := some ["dev"] }

/-- Store holding only `exDevRepo`. -/
def exDevState : DBState := { repos := [exDevRepo] }

/-- The webhook payload's repository object. -/
def exRepository : Repository :=
  { githubId := 7, name := "r", fullName := "o/r", isPrivate := false,
    owner := { login := "o" }, htmlUrl := "https://host/o/r",
    cloneUrl := "https://host/o/r.git", sshUrl := "git@host:o/r.git",
    defaultBranch := "main" }

/-- A push to `refs/heads/dev`. -/
def exPushDev : PushEvent :=
  { gitRef := "refs/heads/dev", before := "b0", after := "a1",
    repository := exRepository }

/-- A push to `refs/heads/main`. -/
def exPushMain : PushEvent := { exPushDev with gitRef := "refs/heads/main" }

/-- A scheduled entry pointing at branch `dev` of repo 1. -/
def exSched : ScheduledRow :=
  { id := 5, repoId := 1, cronExpression := "0 0 * * *", branch := some "dev" }

/-- Store for the scheduler scenarios. -/
def exSchedState : DBState := { repos := [exRepo], scheds := [exSched] }

/-- Scenario E6's first stage: `command = "false"`. -/
def exStageA : StageConfig := { name := "a", command := "false" }

/-- Scenario E6's second stage: `condition = on_failure`. -/
def exStageB : StageConfig :=
  { name := "b", command := "echo ok", condition := some StageCondition.onFailure }

/-- Scenario E6's third stage: default condition. -/
def exStageC : StageConfig := { name := "c", command := "echo ok" }

/-- Container oracle of scenario E6: the command `false` exits non-zero,
`echo ok` succeeds. -/
def exExec (st : StageConfig) : Bool := !(st.command == "false")

/-- A due scheduled entry whose cron expression is year-restricted
(`"* * * * * * 2020"` parses but has no upcoming occurrence). -/
def exExpiredSched : ScheduledRow :=
  { id := 6, repoId := 1, cronExpression := "* * * * * * 2020" }

/-- Store with the expired-cron due entry. -/
def exExpiredState : DBState := { repos := [exRepo], scheds := [exExpiredSched] }

/-- Cron semantics of an expression whose occurrence set lies entirely in
the past: `Schedule::upcoming(Utc).next()` yields `None`. -/
def cronNextNone : String → Nat → Option Nat := fun _ _ => none

/-- Repo with pull-request builds disabled by its synced trigger filter. -/
def exNoPrRepo : RepoRow := { exRepo with triggersPullRequests := some false }

/-- Store holding only `exNoPrRepo`. -/
def exNoPrState : DBState := { repos := [exNoPrRepo] }

/-- An `opened`, non-draft pull-request event against `main`. -/
def exPrEvent : PullRequestEvent :=
  { action := "opened",
    pullRequest := { number := 3, title := "t", draft := false,
                     head := { gitRef := "feat", sha := "h1" },
                     base := { gitRef := "main", sha := "b1" } },
    repository := exRepository }

/-! # Theorems -/

theorem foldl_olderOf_mem (l : List JobRow) (a : JobRow) :
    l.foldl olderOf a = a ∨ l.foldl olderOf a ∈ l := by
  induction l generalizing a with
  | nil => exact Or.inl rfl
  | cons x xs ih =>
      simp only [List.foldl_cons]
      rcases ih (olderOf a x) with h | h
      · rw [h]
        unfold olderOf
        split
        · exact Or.inr (List.mem_cons_self x xs)
        · exact Or.inl rfl
      · exact Or.inr (List.mem_cons_of_mem x h)

theorem selectOldestQueued_spec {jobs : List JobRow} {j : JobRow}
    (h : selectOldestQueued jobs = some j) :
    j ∈ jobs ∧ j.status = JobStatus.queued := by
  unfold selectOldestQueued at h
  rcases hf : jobs.filter (fun x => x.status == JobStatus.queued) with _ | ⟨a, rest⟩ <;>
    rw [hf] at h
  · cases h
  · have hj : rest.foldl olderOf a = j := Option.some.inj h
    have hmem : j ∈ jobs.filter (fun x => x.status == JobStatus.queued) := by
      rw [hf]
      rcases foldl_olderOf_mem rest a with h2 | h2
      · rw [← hj, h2]; exact List.mem_cons_self a rest
      · exact List.mem_cons_of_mem a (hj ▸ h2)
    have hm := List.mem_filter.mp hmem
    exact ⟨hm.1, by simpa using hm.2⟩

theorem claimJob_fst_some {s : DBState} {c : ClaimCall} {cj : ClaimedJob}
    (h : (claimJob s c).1 = some cj) :
    ∃ j, selectOldestQueued s.jobs = some j ∧ j.id = cj.id ∧ cj.claimToken = c.token ∧
      (claimJob s c).2.jobs = markClaimed c j.id s.jobs := by
  unfold claimJob at h ⊢
  rcases hsel : selectOldestQueued s.jobs with _ | j
  · rw [hsel] at h
    exact Option.noConfusion h
  · rw [hsel] at h
    have h' : (s.repos.find? (fun r => r.id == j.repoId)).map (fun repo =>
        ({ id := j.id, repoId := j.repoId, repoOwner := repo.owner,
           repoName := repo.name, cloneUrl := repo.cloneUrl,
           gitSha := j.gitSha, gitRef := j.gitRef,
           image := repo.defaultImage, claimToken := c.token } : ClaimedJob)) = some cj := h
    rcases Option.map_eq_some'.mp h' with ⟨repo, _, hcj⟩
    exact ⟨j, rfl, by rw [← hcj], by rw [← hcj], rfl⟩

theorem mem_markClaimed {c : ClaimCall} {J : Nat} {jobs : List JobRow} {j' : JobRow}
    (h : j' ∈ markClaimed c J jobs) :
    ∃ r ∈ jobs,
      (r.id = J ∧
        j' = { r with status := JobStatus.running, startedAt := some c.now,
                      claimedBy := some c.agent, claimToken := some c.token })
      ∨ (r.id ≠ J ∧ j' = r) := by
  unfold markClaimed at h
  rcases List.mem_map.mp h with ⟨r, hr, hmap⟩
  refine ⟨r, hr, ?_⟩
  by_cases hid : r.id = J
  · exact Or.inl ⟨hid, by rw [← hmap]; simp [hid]⟩
  · exact Or.inr ⟨hid, by rw [← hmap]; simp [hid]⟩

theorem markClaimed_id_fields {c : ClaimCall} {J : Nat} {jobs : List JobRow} {j' : JobRow}
    (h : j' ∈ markClaimed c J jobs) (hid : j'.id = J) :
    j'.status = JobStatus.running ∧ j'.claimToken = some c.token ∧
    j'.claimedBy = some c.agent ∧ j'.startedAt = some c.now := by
  rcases mem_markClaimed h with ⟨r, _, ⟨_, heq⟩ | ⟨hne, heq⟩⟩
  · rw [heq]
    exact ⟨rfl, rfl, rfl, rfl⟩
  · rw [heq] at hid
    exact absurd hid hne

theorem claimJob_preserves_notQueued {s : DBState} {c : ClaimCall} {J : Nat}
    (h : notQueuedIn s J) : notQueuedIn (claimJob s c).2 J := by
  intro j' hj' hid
  unfold claimJob at hj'
  rcases hsel : selectOldestQueued s.jobs with _ | j
  · rw [hsel] at hj'
    exact h j' hj' hid
  · rw [hsel] at hj'
    simp only at hj'
    rcases mem_markClaimed hj' with ⟨r, hr, ⟨_, heq⟩ | ⟨_, heq⟩⟩
    · rw [heq]
      simp
    · rw [heq] at hid ⊢
      exact h r hr hid

theorem claimJob_some_notQueued_post {s : DBState} {c : ClaimCall} {cj : ClaimedJob}
    (h : (claimJob s c).1 = some cj) : notQueuedIn (claimJob s c).2 cj.id := by
  obtain ⟨j, _, hid, _, hjobs⟩ := claimJob_fst_some h
  intro j' hj' hid'
  rw [hjobs] at hj'
  have hf := markClaimed_id_fields hj' (hid'.trans hid.symm)
  rw [hf.1]
  simp

theorem claimMany_not_mem {s : DBState} {J : Nat} (h : notQueuedIn s J)
    (cs : List ClaimCall) : J ∉ ((claimMany s cs).1.map (fun cj => cj.id)) := by
  induction cs generalizing s with
  | nil => simp [claimMany]
  | cons c cs ih =>
      simp only [claimMany]
      rcases hc : (claimJob s c).1 with _ | cj
      · show J ∉ ((claimMany (claimJob s c).2 cs).1.map (fun cj => cj.id))
        exact ih (claimJob_preserves_notQueued h)
      · show J ∉ ((cj :: (claimMany (claimJob s c).2 cs).1).map (fun cj => cj.id))
        simp only [List.map_cons, List.mem_cons]
        rintro (heq | hmem)
        · obtain ⟨j, hsel, hid, _, _⟩ := claimJob_fst_some hc
          obtain ⟨hmemj, hq⟩ := selectOldestQueued_spec hsel
          exact h j hmemj (by rw [hid, ← heq]) hq
        · exact ih (claimJob_preserves_notQueued h) hmem

theorem claimMany_nodup (s : DBState) (cs : List ClaimCall) :
    ((claimMany s cs).1.map (fun cj => cj.id)).Nodup := by
  induction cs generalizing s with
  | nil => simp [claimMany]
  | cons c cs ih =>
      simp only [claimMany]
      rcases hc : (claimJob s c).1 with _ | cj
      · show (((claimMany (claimJob s c).2 cs).1).map (fun cj => cj.id)).Nodup
        exact ih _
      · show ((cj :: (claimMany (claimJob s c).2 cs).1).map (fun cj => cj.id)).Nodup
        simp only [List.map_cons, List.nodup_cons]
        exact ⟨claimMany_not_mem (claimJob_some_notQueued_post hc) cs, ih _⟩

/-- **C1** — Mutual exclusion of leases: across any serialized sequence of
`claim_job` calls (the skip-locked transaction serializes concurrent
callers), at most one call returns a `ClaimedJob` for any given job id —
the returned ids are pairwise distinct — and every successful claim picked
a `queued` job and atomically transitioned every row bearing its id to
`running`, stamping `started_at`, `claimed_by` and the freshly minted
claim token, which is also the token handed to the winning agent. -/
theorem claim_job_mutual_exclusion :
    (∀ (s : DBState) (calls : List ClaimCall),
       ((claimMany s calls).1.map (fun cj => cj.id)).Nodup)
    ∧ (∀ (s : DBState) (c : ClaimCall) (cj : ClaimedJob),
       (claimJob s c).1 = some cj →
         (∃ j ∈ s.jobs, j.id = cj.id ∧ j.status = JobStatus.queued) ∧
         cj.claimToken = c.token ∧
         (∀ j' ∈ (claimJob s c).2.jobs, j'.id = cj.id →
            j'.status = JobStatus.running ∧ j'.claimToken = some c.token ∧
            j'.claimedBy = some c.agent ∧ j'.startedAt = some c.now)) := by
  constructor
  · exact claimMany_nodup
  · intro s c cj h
    obtain ⟨j, hsel, hid, htok, hjobs⟩ := claimJob_fst_some h
    obtain ⟨hmemj, hq⟩ := selectOldestQueued_spec hsel
    refine ⟨⟨j, hmemj, hid, hq⟩, htok, ?_⟩
    intro j' hj' hid'
    rw [hjobs] at hj'
    exact markClaimed_id_fields hj' (hid'.trans hid.symm)

/-- Witness for C1 at the store of scenario E2: two claim calls return
distinct job ids, and agent A's claim of job 10 found it queued. -/
theorem claim_job_mutual_exclusion_witness :
    (((claimMany exClaimState [exCallA, exCallB]).1.map (fun cj => cj.id)).Nodup)
    ∧ (∃ j ∈ exClaimState.jobs, j.id = 10 ∧ j.status = JobStatus.queued) := by
  have h := claim_job_mutual_exclusion
  refine ⟨h.1 exClaimState [exCallA, exCallB], ?_⟩
  have h2 := h.2 exClaimState exCallA
    ⟨10, 1, "o", "r", "https://host/o/r.git", "abc123", "refs/heads/main",
     "ubuntu:latest", 100⟩ (by decide)
  exact h2.1

theorem runningGuard_iff {J T : Nat} {j : JobRow} :
    runningGuard J T j = true ↔
      j.id = J ∧ j.claimToken = some T ∧ j.status = JobStatus.running := by
  unfold runningGuard
  simp [Bool.and_eq_true, and_assoc]

theorem any_runningGuard_iff {s : DBState} {J T : Nat} :
    s.jobs.any (runningGuard J T) = true ↔
      ∃ j ∈ s.jobs, j.id = J ∧ j.claimToken = some T ∧ j.status = JobStatus.running := by
  simp only [List.any_eq_true, runningGuard_iff]

theorem list_map_id_of {α : Type} (l : List α) (f : α → α) (h : ∀ x ∈ l, f x = x) :
    l.map f = l := by
  induction l with
  | nil => rfl
  | cons x xs ih =>
      simp [h x (List.mem_cons_self x xs),
            ih (fun y hy => h y (List.mem_cons_of_mem x hy))]

theorem appendLog_eq (s : DBState) (J T : Nat) (line : String) :
    appendLog s J T line =
      (s.jobs.any (runningGuard J T),
       if s.jobs.any (runningGuard J T) then
         { s with logs := s.logs ++ [{ jobId := J, line := line }] }
       else s) := by
  unfold appendLog
  by_cases hx : s.jobs.any (runningGuard J T) = true <;> simp [hx]

theorem finishJob_eq (s : DBState) (J T : Nat) (suc : Bool) (n : Nat) :
    finishJob s J T suc n =
      (s.jobs.any (runningGuard J T),
       { s with jobs := s.jobs.map (fun j =>
           if runningGuard J T j then
             { j with status := if suc then JobStatus.success else JobStatus.failed,
                      finishedAt := some n }
           else j) }) := by
  unfold finishJob
  by_cases h : s.jobs.any (runningGuard J T) = true
  · rcases List.any_eq_true.mp h with ⟨a, ha, hpa⟩
    have hpos : 0 < s.jobs.countP (fun j => runningGuard J T j) :=
      List.countP_pos_iff.mpr ⟨a, ha, hpa⟩
    simp [h, hpos]
  · have h0 : s.jobs.any (runningGuard J T) = false := by simpa using h
    have hz : s.jobs.countP (fun j => runningGuard J T j) = 0 := by
      rw [List.countP_eq_zero]
      intro a ha
      simpa using (List.any_eq_false.mp h0) a ha
    simp [h0, hz]

/-- **C2** — Token-guarded log append: `append_log(J, T, line)` returns
`true` and appends exactly one log row if and only if a `running` job with
id `J` and claim token `T` exists; in every other case — wrong token,
wrong status, or no such job — it returns `false` and leaves the store
untouched. -/
theorem append_log_token_guard :
    ∀ (s : DBState) (J T : Nat) (line : String),
      ((appendLog s J T line).1 = true ↔
        ∃ j ∈ s.jobs, j.id = J ∧ j.claimToken = some T ∧ j.status = JobStatus.running)
      ∧ ((appendLog s J T line).1 = true →
          (appendLog s J T line).2 =
            { s with logs := s.logs ++ [{ jobId := J, line := line }] })
      ∧ ((appendLog s J T line).1 = false → (appendLog s J T line).2 = s) := by
  intro s J T line
  rw [appendLog_eq]
  refine ⟨any_runningGuard_iff, ?_, ?_⟩
  · intro h1
    have h1' : s.jobs.any (runningGuard J T) = true := h1
    simp [h1']
  · intro h0
    have h0' : s.jobs.any (runningGuard J T) = false := h0
    simp [h0']

/-- Witness for C2 at the one-running-job store: the rightful token 100
appends and returns `true`; the stolen token 101 is refused and the store
is unchanged. -/
theorem append_log_token_guard_witness :
    ((appendLog exRunningState 10 100 "hello").1 = true) ∧
    ((appendLog exRunningState 10 101 "x").2 = exRunningState) := by
  have h1 := append_log_token_guard exRunningState 10 100 "hello"
  have h2 := append_log_token_guard exRunningState 10 101 "x"
  exact ⟨h1.1.mpr (by decide), h2.2.2 (by decide)⟩

/-- **C3** — `finish_job` semantics: the update applies (returns `true`)
iff the job is `running` under the presented token; when it applies, the
job row now carries status `success`/`failed` according to the flag and a
stamped `finished_at`; and a second `finish` with the same `(job_id,
claim_token)` — whatever its flag — returns `false` and leaves the store
exactly as the first call left it. -/
theorem finish_job_semantics :
    ∀ (s : DBState) (J T : Nat) (suc : Bool) (n : Nat),
      ((finishJob s J T suc n).1 = true ↔
        ∃ j ∈ s.jobs, j.id = J ∧ j.claimToken = some T ∧ j.status = JobStatus.running)
      ∧ ((finishJob s J T suc n).1 = true →
          ∃ j' ∈ (finishJob s J T suc n).2.jobs,
            j'.id = J ∧ j'.claimToken = some T ∧
            j'.status = (if suc then JobStatus.success else JobStatus.failed) ∧
            j'.finishedAt = some n)
      ∧ (∀ (suc' : Bool) (n' : Nat),
          finishJob (finishJob s J T suc n).2 J T suc' n' =
            (false, (finishJob s J T suc n).2)) := by
  intro s J T suc n
  have hguard : ∀ j' ∈ (finishJob s J T suc n).2.jobs, runningGuard J T j' = false := by
    rw [finishJob_eq]
    intro j' hj'
    rcases List.mem_map.mp hj' with ⟨a, _, hmap⟩
    by_cases hpa : runningGuard J T a = true
    · rw [← hmap, if_pos hpa]
      unfold runningGuard
      rcases suc with _ | _ <;> simp
    · have hpa' : runningGuard J T a = false := by simpa using hpa
      rw [← hmap, if_neg (by simp [hpa'])]
      exact hpa'
  refine ⟨?_, ?_, ?_⟩
  · rw [finishJob_eq]
    exact any_runningGuard_iff
  · rw [finishJob_eq]
    intro h1
    rcases List.any_eq_true.mp h1 with ⟨a, ha, hpa⟩
    refine ⟨{ a with status := if suc then JobStatus.success else JobStatus.failed,
                     finishedAt := some n }, ?_, ?_, ?_, rfl, rfl⟩
    · exact List.mem_map.mpr ⟨a, ha, by rw [if_pos hpa]⟩
    · exact (runningGuard_iff.mp hpa).1
    · exact (runningGuard_iff.mp hpa).2.1
  · intro suc' n'
    rw [finishJob_eq ((finishJob s J T suc n).2)]
    have hany : ((finishJob s J T suc n).2).jobs.any (runningGuard J T) = false := by
      rw [List.any_eq_false]
      intro x hx
      simp [hguard x hx]
    rw [hany]
    have hmap := list_map_id_of ((finishJob s J T suc n).2).jobs
      (fun j => if runningGuard J T j then
         { j with status := if suc' then JobStatus.success else JobStatus.failed,
                  finishedAt := some n' }
       else j)
      (fun x hx => by
        have hg := hguard x hx
        simp [hg])
    rw [hmap]

/-- Witness for C3: finishing the running job succeeds, and a second
finish with the same token is refused with the store unchanged. -/
theorem finish_job_semantics_witness :
    ((finishJob exRunningState 10 100 true 9).1 = true) ∧
    (finishJob (finishJob exRunningState 10 100 true 9).2 10 100 true 11 =
      (false, (finishJob exRunningState 10 100 true 9).2)) := by
  have h := finish_job_semantics exRunningState 10 100 true 9
  exact ⟨h.1.mpr (by decide), h.2.2 true 11⟩

theorem storeMetrics_eq (s : DBState) (J T : Nat) (m : String) :
    storeMetrics s J T m =
      (s.jobs.any (fun j => j.id == J && j.claimToken == some T),
       { s with jobs := s.jobs.map (fun j =>
           if j.id == J && j.claimToken == some T then { j with metricsJson := some m }
           else j) }) := by
  unfold storeMetrics
  by_cases h : s.jobs.any (fun j => j.id == J && j.claimToken == some T) = true
  · rcases List.any_eq_true.mp h with ⟨a, ha, hpa⟩
    have hpos : 0 < s.jobs.countP (fun j => j.id == J && j.claimToken == some T) :=
      List.countP_pos_iff.mpr ⟨a, ha, hpa⟩
    simp [h, hpos]
  · have h0 : s.jobs.any (fun j => j.id == J && j.claimToken == some T) = false := by
      simpa using h
    have hz : s.jobs.countP (fun j => j.id == J && j.claimToken == some T) = 0 := by
      rw [List.countP_eq_zero]
      intro a ha
      simpa using (List.any_eq_false.mp h0) a ha
    simp [h0, hz]

theorem any_tokenGuard_iff {s : DBState} {J T : Nat} :
    s.jobs.any (fun j => j.id == J && j.claimToken == some T) = true ↔
      ∃ j ∈ s.jobs, j.id = J ∧ j.claimToken = some T := by
  simp [List.any_eq_true]

/-- Counterexample to C9 as stated: on a store whose only job is terminal
(`success`, token 100 retained), `store_metrics` with the retained token
*applies*: it returns `true` and rewrites the job row's `metrics_json` —
the guard of `db.rs:store_metrics` checks only `(id, claim_token)`, not
the status, so terminal rows are still mutated. -/
theorem store_metrics_mutates_terminal :
    ((storeMetrics exTerminalState 10 100 "m").1 = true)
    ∧ ((storeMetrics exTerminalState 10 100 "m").2.jobs ≠ exTerminalState.jobs)
    ∧ (∃ j ∈ (storeMetrics exTerminalState 10 100 "m").2.jobs,
        j.metricsJson = some "m") := by decide

/-- **C9** (amended) — Terminal-job guarantees: once every row bearing id
`J` is terminal (`success`/`failed`), `append_log` and `finish` are
refused and leave the store untouched, and no operation changes any field
but `metrics_json`; however `store_metrics` guards only on the retained
`(id, claim_token)` pair, so it still applies on a terminal job and
overwrites its `metrics_json`; the retained token likewise still serves
`get_logs` for post-hoc log fetches. -/
theorem terminal_job_guards :
    ∀ (s : DBState) (J T : Nat) (line m : String) (suc : Bool) (n : Nat),
      (∀ j ∈ s.jobs, j.id = J →
         (j.status = JobStatus.success ∨ j.status = JobStatus.failed)) →
        (appendLog s J T line = (false, s))
      ∧ (finishJob s J T suc n = (false, s))
      ∧ ((storeMetrics s J T m).1 = true ↔
          ∃ j ∈ s.jobs, j.id = J ∧ j.claimToken = some T)
      ∧ (∀ j' ∈ (storeMetrics s J T m).2.jobs, ∃ j ∈ s.jobs,
          j' = j ∨ j' = { j with metricsJson := some m })
      ∧ ((getLogs s J T).isSome = true ↔
          ∃ j ∈ s.jobs, j.id = J ∧ j.claimToken = some T) := by
  intro s J T line m suc n hterm
  have hany : s.jobs.any (runningGuard J T) = false := by
    rw [List.any_eq_false]
    intro x hx hgx
    rcases runningGuard_iff.mp hgx with ⟨hid, _, hrun⟩
    rcases hterm x hx hid with hs | hs <;> rw [hrun] at hs <;> cases hs
  refine ⟨?_, ?_, ?_, ?_, ?_⟩
  · rw [appendLog_eq, hany]
    simp
  · rw [finishJob_eq, hany]
    have hmap := list_map_id_of s.jobs
      (fun j => if runningGuard J T j then
         { j with status := if suc then JobStatus.success else JobStatus.failed,
                  finishedAt := some n }
       else j)
      (fun x hx => by
        have hg := (List.any_eq_false.mp hany) x hx
        simp only [Bool.not_eq_true] at hg
        simp [hg])
    rw [hmap]
  · rw [storeMetrics_eq]
    exact any_tokenGuard_iff
  · rw [storeMetrics_eq]
    intro j' hj'
    rcases List.mem_map.mp hj' with ⟨a, ha, hmap⟩
    by_cases hg : (a.id == J && a.claimToken == some T) = true
    · exact ⟨a, ha, Or.inr (by rw [← hmap, if_pos hg])⟩
    · exact ⟨a, ha, Or.inl (by rw [← hmap, if_neg hg])⟩
  · unfold getLogs
    by_cases hg : s.jobs.any (fun j => j.id == J && j.claimToken == some T) = true
    · rw [if_pos hg]
      exact iff_of_true rfl (any_tokenGuard_iff.mp hg)
    · rw [if_neg hg]
      constructor
      · intro hh
        exact Bool.noConfusion hh
      · intro hex
        exact absurd (any_tokenGuard_iff.mpr hex) hg

/-- Witness for C9 (amended) at the terminal store: log append is refused
with the store unchanged, while `store_metrics` with the retained token 100
still applies. -/
theorem terminal_job_guards_witness :
    (appendLog exTerminalState 10 100 "x" = (false, exTerminalState))
    ∧ ((storeMetrics exTerminalState 10 100 "m2").1 = true) := by
  have h := terminal_job_guards exTerminalState 10 100 "x" "m2" true 12 (by decide)
  exact ⟨h.1, h.2.2.1.mpr (by decide)⟩

theorem upsertRepo_jobs (s : DBState) (d : RepoData) : (upsertRepo s d).2.jobs = s.jobs := by
  unfold upsertRepo
  rcases h : s.repos.find? (fun r => r.owner == d.owner && r.name == d.name) with _ | r <;>
    rw [h]

/-- **C10** — The pull-request webhook path never consults the stored PR
trigger filter: whenever `should_build` holds (action ∈ {opened,
synchronize, reopened}, not a draft), `handle_pull_request_event` upserts
the repo and appends exactly one queued `pull_request` job — even in a
store where `should_build_pr` is `false` for the PR's target branch (PR
builds disabled or base branch outside `pr_target_branches`). -/
theorem pr_webhook_ignores_pr_filter :
    ∀ (s : DBState) (e : PullRequestEvent) (now : Nat),
      prShouldBuild e = true →
      shouldBuildPr s e.repository.owner.login e.repository.name
        e.pullRequest.base.gitRef = false →
      ∃ j, (handlePullRequestEvent s e now).2.jobs = s.jobs ++ [j] ∧
        j.status = JobStatus.queued ∧ j.triggerType = "pull_request" ∧
        j.gitSha = e.pullRequest.head.sha := by
  intro s e now hb _
  refine ⟨prJobRowOf (upsertRepo s (RepoData.fromPrEvent e)).2
            (upsertRepo s (RepoData.fromPrEvent e)).1 e now, ?_, rfl, rfl, rfl⟩
  unfold handlePullRequestEvent
  rw [hb]
  simp only [Bool.not_true, Bool.false_eq_true, if_false]
  show (enqueuePrJob _ _ e now).2.jobs = _
  unfold enqueuePrJob
  rw [upsertRepo_jobs]

/-- Witness for C10: the store has PR builds disabled for `o/r`, yet the
`opened` non-draft PR event enqueues a queued `pull_request` job. -/
theorem pr_webhook_ignores_pr_filter_witness :
    ∃ j, (handlePullRequestEvent exNoPrState exPrEvent 3).2.jobs =
        exNoPrState.jobs ++ [j] ∧
      j.status = JobStatus.queued ∧ j.triggerType = "pull_request" ∧
      j.gitSha = exPrEvent.pullRequest.head.sha :=
  pr_webhook_ignores_pr_filter exNoPrState exPrEvent 3 (by decide) (by decide)

/-- **C5** — The push ingest does not consult `should_build_branch`: with
the repo's synced filter set to `{dev}`, a push to `refs/heads/dev` (which
`should_build_branch` approves) is a complete no-op, while a push to
`refs/heads/main` (which the filter rejects) still enqueues a job —
`handle_push_event` hardcodes `ref_name != "main" && ref_name != "master"`. -/
theorem push_branch_filter_not_consulted :
    ((shouldBuildBranch exDevState "o" "r" "dev" = true)
      ∧ ((handlePushEvent exDevState exPushDev 3).2 = exDevState))
    ∧ ((shouldBuildBranch exDevState "o" "r" "main" = false)
      ∧ ((handlePushEvent exDevState exPushMain 3).2.jobs.length =
          exDevState.jobs.length + 1)) := by decide

/-- **C6** — Scheduled-job sentinel divergence: `enqueue_scheduled_job`
for the entry on branch `dev` writes the literal `git_sha = "HEAD"` — not
`"RESOLVE:dev"` — with `git_ref = refs/heads/dev` and
`trigger_type = manual`; since `"HEAD"` does not start with `"RESOLVE:"`,
the agent takes the checkout-by-SHA path (`git clone` without `-b`, then
`git checkout HEAD`).  The agent half of the protocol does behave as
claimed when it *is* given a sentinel: `"RESOLVE:dev"` yields a clone of
branch `dev` via `-b` and no post-clone checkout. -/
theorem scheduled_job_sentinel_divergence :
    (((enqueueScheduledJob exSchedState exSched 4).jobs.map
        (fun j => (j.gitSha, j.gitRef, j.triggerType))) =
      [("HEAD", "refs/heads/dev", "manual")])
    ∧ (startsWithStr "RESOLVE:" "HEAD" = false)
    ∧ (cloneRefAndScheduled "HEAD" = ("HEAD", false))
    ∧ (gitCloneArgs "u" "HEAD" "d" false = ["clone", "--depth", "50", "u", "d"])
    ∧ (performsCheckout false = true)
    ∧ (cloneRefAndScheduled "RESOLVE:dev" = ("dev", true))
    ∧ (gitCloneArgs "u" "dev" "d" true = ["clone", "--depth", "50", "-b", "dev", "u", "d"])
    ∧ (performsCheckout true = false) := by decide

/-- Counterexample to C7 as stated: on the E6 stage list `[a (fails),
b (on_failure), c]` the loop `break`s right after `a` — the run is
`[a failed]` only, so `b` never runs (it is not even recorded as skipped)
and the claimed order a → b (runs) → c (skipped) does not happen; the job
still fails overall. -/
theorem pipeline_on_failure_counterexample :
    ((runStages exExec "refs/heads/main" [exStageA, exStageB, exStageC]).records =
      [{ name := "a", status := StageStatus.failed }])
    ∧ ({ name := "b", status := StageStatus.success } ∉
        (runStages exExec "refs/heads/main" [exStageA, exStageB, exStageC]).records)
    ∧ ((runStages exExec "refs/heads/main" [exStageA, exStageB, exStageC]).ok = false) := by
  decide

/-- **C7** (amended) — Pipeline break semantics of `run_stages`: when a
stage without `allow_failure` whose condition is `on_success` (explicit or
default) fails, the loop `break`s — the remaining stages are not evaluated
at all, so no later `on_failure`/`always` stage runs and the pipeline ends
failed with that stage's record last.  A later `on_failure` stage does run
when the failing stage's condition was *not* `on_success`/default (e.g.
`always`).  The job fails overall iff `any_failed`. -/
theorem pipeline_break_semantics :
    (∀ (exec : StageConfig → Bool) (gitRef : String) (a : StageConfig)
       (rest : List StageConfig),
       a.allowFailure = false →
       (a.condition = none ∨ a.condition = some StageCondition.onSuccess) →
       exec a = false →
       runStages exec gitRef (a :: rest) =
         { records := [{ name := a.name, status := StageStatus.failed }],
           anyFailed := true, ok := false })
    ∧ (∀ (exec : StageConfig → Bool) (gitRef : String) (a b : StageConfig),
       a.allowFailure = false →
       a.condition = some StageCondition.always →
       exec a = false →
       b.condition = some StageCondition.onFailure →
       exec b = true →
       runStages exec gitRef [a, b] =
         { records := [{ name := a.name, status := StageStatus.failed },
                       { name := b.name, status := StageStatus.success }],
           anyFailed := true, ok := false })
    ∧ (∀ (exec : StageConfig → Bool) (gitRef : String) (stages : List StageConfig),
       (runStages exec gitRef stages).ok = !(runStages exec gitRef stages).anyFailed) := by
  refine ⟨?_, ?_, ?_⟩
  · intro exec gitRef a rest hallow hcond hexec
    have hrun : stageShouldRun gitRef false a.condition = true := by
      rcases hcond with h | h <;> simp [stageShouldRun, h]
    unfold runStages runStagesLoop
    rw [hrun, hexec, hallow]
    simp only [Bool.not_true, Bool.false_eq_true, if_false]
    rw [if_pos hcond]
    rfl
  · intro exec gitRef a b hallow hcond hexecA hcondB hexecB
    have hrunA : stageShouldRun gitRef false a.condition = true := by
      simp [stageShouldRun, hcond]
    have hrunB : stageShouldRun gitRef true b.condition = true := by
      simp [stageShouldRun, hcondB]
    have hnotbreak : ¬(a.condition = none ∨ a.condition = some StageCondition.onSuccess) := by
      rw [hcond]
      rintro (h | h) <;> cases h
    unfold runStages runStagesLoop
    rw [hrunA, hexecA, hallow]
    simp only [Bool.not_true, Bool.false_eq_true, if_false]
    rw [if_neg hnotbreak]
    unfold runStagesLoop
    rw [hrunB, hexecB]
    simp only [Bool.not_true, Bool.false_eq_true, if_false, if_true]
    rfl
  · intro exec gitRef stages
    rfl

/-- Witness for C7 (amended): with the E6 oracle, stage `a` (default
condition, fails) breaks the two-stage pipeline `[a, b]` immediately. -/
theorem pipeline_break_semantics_witness :
    runStages exExec "refs/heads/main" [exStageA, exStageB] =
      { records := [{ name := exStageA.name, status := StageStatus.failed }],
        anyFailed := true, ok := false } :=
  pipeline_break_semantics.1 exExec "refs/heads/main" exStageA [exStageB]
    (by decide) (Or.inl (by decide)) (by decide)

theorem enqueueScheduledJob_scheds (s : DBState) (sched : ScheduledRow) (now : Nat) :
    (enqueueScheduledJob s sched now).scheds = s.scheds := by
  unfold enqueueScheduledJob
  rcases h : s.repos.find? (fun r => r.id == sched.repoId) with _ | repo <;> rw [h]

theorem tickStep_preserves_rowQ {cronNext : String → Nat → Option Nat}
    {now : Nat} {st : DBState} {sched : ScheduledRow} {J u : Nat}
    (hne : sched.id ≠ J)
    (hQ : ∀ r' ∈ st.scheds, r'.id = J →
      r'.lastRunAt = some now ∧ r'.nextRunAt = some u) :
    ∀ r' ∈ (tickStep cronNext now st sched).scheds, r'.id = J →
      r'.lastRunAt = some now ∧ r'.nextRunAt = some u := by
  intro r' hr' hid
  unfold tickStep at hr'
  rcases hc : cronNext sched.cronExpression now with _ | next
  · rw [hc] at hr'
    rw [enqueueScheduledJob_scheds] at hr'
    exact hQ r' hr' hid
  · rw [hc] at hr'
    simp only at hr'
    rw [enqueueScheduledJob_scheds] at hr'
    rcases List.mem_map.mp hr' with ⟨r0, hr0, hmap⟩
    by_cases hid0 : (r0.id == sched.id) = true
    · exfalso
      have he : r' = { r0 with lastRunAt := some now, nextRunAt := some next } := by
        rw [← hmap, if_pos hid0]
      rw [he] at hid
      have hid' : r0.id = J := hid
      exact hne (by rw [← (beq_iff_eq.mp hid0), hid'])
    · have he : r' = r0 := by rw [← hmap, if_neg hid0]
      rw [he] at hid ⊢
      exact hQ r0 hr0 hid

theorem tickStep_sets_rowQ {cronNext : String → Nat → Option Nat}
    {now : Nat} {st : DBState} {sched : ScheduledRow} {u : Nat}
    (hc : cronNext sched.cronExpression now = some u) :
    ∀ r' ∈ (tickStep cronNext now st sched).scheds, r'.id = sched.id →
      r'.lastRunAt = some now ∧ r'.nextRunAt = some u := by
  intro r' hr' hid
  unfold tickStep at hr'
  rw [hc] at hr'
  simp only at hr'
  rw [enqueueScheduledJob_scheds] at hr'
  rcases List.mem_map.mp hr' with ⟨r0, hr0, hmap⟩
  by_cases hid0 : (r0.id == sched.id) = true
  · have he : r' = { r0 with lastRunAt := some now, nextRunAt := some u } := by
      rw [← hmap, if_pos hid0]
    rw [he]
    exact ⟨rfl, rfl⟩
  · exfalso
    have he : r' = r0 := by rw [← hmap, if_neg hid0]
    rw [he] at hid
    exact hid0 (beq_iff_eq.mpr hid)

theorem tickFold_preserves_rowQ {cronNext : String → Nat → Option Nat}
    {now : Nat} {J u : Nat} :
    ∀ (L : List ScheduledRow) (st : DBState),
      (∀ x ∈ L, x.id ≠ J) →
      (∀ r' ∈ st.scheds, r'.id = J →
        r'.lastRunAt = some now ∧ r'.nextRunAt = some u) →
      ∀ r' ∈ (L.foldl (tickStep cronNext now) st).scheds, r'.id = J →
        r'.lastRunAt = some now ∧ r'.nextRunAt = some u := by
  intro L
  induction L with
  | nil => intro st _ hQ; simpa using hQ
  | cons x L ih =>
      intro st hne hQ
      simp only [List.foldl_cons]
      exact ih (tickStep cronNext now st x)
        (fun y hy => hne y (List.mem_cons_of_mem x hy))
        (tickStep_preserves_rowQ (hne x (List.mem_cons_self x L)) hQ)

theorem tickFold_rowQ {cronNext : String → Nat → Option Nat} {now u : Nat} :
    ∀ (L : List ScheduledRow) (st : DBState) (r : ScheduledRow),
      r ∈ L → ((L.map (fun x => x.id)).Nodup) →
      cronNext r.cronExpression now = some u →
      ∀ r' ∈ (L.foldl (tickStep cronNext now) st).scheds, r'.id = r.id →
        r'.lastRunAt = some now ∧ r'.nextRunAt = some u := by
  intro L
  induction L with
  | nil =>
      intro st r hr
      exact absurd hr (List.not_mem_nil r)
  | cons x L ih =>
      intro st r hr hnd hc
      simp only [List.foldl_cons]
      rcases List.mem_cons.mp hr with heq | hmem
      · subst heq
        have hnotin : ∀ y ∈ L, y.id ≠ r.id := by
          simp only [List.map_cons, List.nodup_cons] at hnd
          intro y hy hyid
          exact hnd.1 (by rw [← hyid]; exact List.mem_map_of_mem _ hy)
        exact tickFold_preserves_rowQ L _ hnotin (tickStep_sets_rowQ hc)
      · simp only [List.map_cons, List.nodup_cons] at hnd
        exact ih (tickStep cronNext now st x) r hmem hnd.2 hc

theorem tickStep_mono {cronNext : String → Nat → Option Nat} {now : Nat}
    (hfut : ∀ e t u, cronNext e t = some u → t < u)
    {st : DBState} {sched : ScheduledRow}
    (hInv : ∀ r ∈ st.scheds, ∀ a b,
      r.lastRunAt = some a → r.nextRunAt = some b → a < b) :
    ∀ r' ∈ (tickStep cronNext now st sched).scheds, ∀ a b,
      r'.lastRunAt = some a → r'.nextRunAt = some b → a < b := by
  intro r' hr' a b hla hnb
  unfold tickStep at hr'
  rcases hc : cronNext sched.cronExpression now with _ | next
  · rw [hc] at hr'
    rw [enqueueScheduledJob_scheds] at hr'
    exact hInv r' hr' a b hla hnb
  · rw [hc] at hr'
    simp only at hr'
    rw [enqueueScheduledJob_scheds] at hr'
    rcases List.mem_map.mp hr' with ⟨r0, hr0, hmap⟩
    by_cases hid0 : (r0.id == sched.id) = true
    · have he : r' = { r0 with lastRunAt := some now, nextRunAt := some next } := by
        rw [← hmap, if_pos hid0]
      rw [he] at hla hnb
      have ha : some now = some a := hla
      have hb : some next = some b := hnb
      rw [← Option.some.inj ha, ← Option.some.inj hb]
      exact hfut _ _ _ hc
    · have he : r' = r0 := by rw [← hmap, if_neg hid0]
      rw [he] at hla hnb
      exact hInv r0 hr0 a b hla hnb

theorem tickFold_mono {cronNext : String → Nat → Option Nat} {now : Nat}
    (hfut : ∀ e t u, cronNext e t = some u → t < u) :
    ∀ (L : List ScheduledRow) (st : DBState),
      (∀ r ∈ st.scheds, ∀ a b,
        r.lastRunAt = some a → r.nextRunAt = some b → a < b) →
      ∀ r' ∈ (L.foldl (tickStep cronNext now) st).scheds, ∀ a b,
        r'.lastRunAt = some a → r'.nextRunAt = some b → a < b := by
  intro L
  induction L with
  | nil => intro st hInv; simpa using hInv
  | cons x L ih =>
      intro st hInv
      simp only [List.foldl_cons]
      exact ih (tickStep cronNext now st x) (tickStep_mono hfut hInv)

/-- Counterexample to C8 as stated: the entry `exExpiredSched` is due
(enabled, `next_run_at` NULL), its cron expression is valid but
year-restricted with no remaining occurrence (`upcoming` yields `None`),
so the tick enqueues its job yet leaves the schedule row — including its
NULL `next_run_at` — completely unchanged: after the tick the due entry
does *not* satisfy `next_run_at > t`. -/
theorem scheduler_tick_stuck_counterexample :
    (isDue 5 exExpiredSched = true)
    ∧ ((schedulerTick cronNextNone exExpiredState 5).scheds = [exExpiredSched])
    ∧ (exExpiredSched.nextRunAt = none)
    ∧ ((schedulerTick cronNextNone exExpiredState 5).jobs.length =
        exExpiredState.jobs.length + 1) := by decide

/-- **C8** (amended) — Scheduler monotonicity for entries with a next
occurrence: provided the cron semantics only ever yields strictly future
instants, after a tick at instant `now` every due entry whose expression
yields an occurrence `u` carries `last_run_at = now` and
`next_run_at = u > now` (a due entry whose cron parse or upcoming lookup
yields nothing is left unchanged); and the invariant `last_run_at <
next_run_at` (whenever both are set) is preserved by the tick. -/
theorem scheduler_tick_monotonicity :
    ∀ (cronNext : String → Nat → Option Nat),
      (∀ e t u, cronNext e t = some u → t < u) →
      ∀ (s : DBState) (now : Nat),
        (((s.scheds.map (fun r => r.id)).Nodup) →
          ∀ r ∈ s.scheds, isDue now r = true →
          ∀ u, cronNext r.cronExpression now = some u →
          ∀ r' ∈ (schedulerTick cronNext s now).scheds, r'.id = r.id →
            r'.lastRunAt = some now ∧ r'.nextRunAt = some u ∧ now < u)
        ∧ ((∀ r ∈ s.scheds, ∀ a b,
              r.lastRunAt = some a → r.nextRunAt = some b → a < b) →
            ∀ r' ∈ (schedulerTick cronNext s now).scheds, ∀ a b,
              r'.lastRunAt = some a → r'.nextRunAt = some b → a < b) := by
  intro cronNext hfut s now
  constructor
  · intro hnd r hr hdue u hc r' hr' hid
    have hrfL : r ∈ s.scheds.filter (isDue now) := List.mem_filter.mpr ⟨hr, hdue⟩
    have hndL : (((s.scheds.filter (isDue now)).map (fun x => x.id)).Nodup) :=
      List.Nodup.sublist (List.Sublist.map _ (List.filter_sublist s.scheds)) hnd
    have hres := tickFold_rowQ (s.scheds.filter (isDue now)) s r hrfL hndL hc r' hr' hid
    exact ⟨hres.1, hres.2, hfut _ _ _ hc⟩
  · intro hInv
    exact tickFold_mono hfut (s.scheds.filter (isDue now)) s hInv

/-- Witness for C8 (amended) with the concrete cron semantics
`next = now + 1`: the due entry of `exSchedState` fires at instant 7 and
its updated row reads `last_run_at = 7`, `next_run_at = 8 > 7`. -/
theorem scheduler_tick_monotonicity_witness :
    ({ exSched with lastRunAt := some 7, nextRunAt := some 8 } : ScheduledRow).lastRunAt
        = some 7
    ∧ ({ exSched with lastRunAt := some 7, nextRunAt := some 8 } : ScheduledRow).nextRunAt
        = some 8
    ∧ 7 < 8 := by
  have h := (scheduler_tick_monotonicity (fun _ t => some (t + 1))
      (fun e t u hh => by
        simp only [Option.some.injEq] at hh
        omega)
      exSchedState 7).1
    (by decide) exSched (by decide) (by decide) 8 (by decide)
    ({ exSched with lastRunAt := some 7, nextRunAt := some 8 }) (by decide) (by decide)
  exact h

theorem stripPre_iff : ∀ (p l rest : List Char), stripPre p l = some rest ↔ l = p ++ rest := by
  intro p
  induction p with
  | nil =>
      intro l rest
      simp [stripPre]
  | cons x ps ih =>
      intro l rest
      cases l with
      | nil => simp [stripPre]
      | cons c cs =>
          by_cases hc : c = x
          · subst hc
            simp [stripPre, ih]
          · simp [stripPre, hc]

theorem hexDigitVal_lowerHexDigit {n : Nat} (h : n < 16) :
    hexDigitVal (lowerHexDigit n) = some n := by
  interval_cases n <;> decide

theorem hexDecode_lowerHex : ∀ (bs : List Nat), (∀ b ∈ bs, b < 256) →
    hexDecode (lowerHex bs) = some bs := by
  intro bs
  induction bs with
  | nil => intro _; rfl
  | cons b bs ih =>
      intro hlt
      have hb : b < 256 := hlt b (List.mem_cons_self b bs)
      have hdiv : b / 16 < 16 := (Nat.div_lt_iff_lt_mul (by norm_num)).mpr (by omega)
      have hmod : b % 16 < 16 := Nat.mod_lt _ (by norm_num)
      have hlh : lowerHex (b :: bs) =
          lowerHexDigit (b / 16) :: lowerHexDigit (b % 16) :: lowerHex bs := by
        simp [lowerHex, byteLowerHex]
      rw [hlh]
      simp only [hexDecode, hexDigitVal_lowerHexDigit hdiv,
        hexDigitVal_lowerHexDigit hmod,
        ih (fun y hy => hlt y (List.mem_cons_of_mem b hy))]
      simp [Nat.div_add_mod]

theorem be32bytes_lt (n : Nat) : ∀ b ∈ be32bytes n, b < 256 := by
  intro b hb
  simp only [be32bytes, List.mem_cons, List.not_mem_nil, or_false] at hb
  rcases hb with h | h | h | h <;> subst h <;> exact Nat.mod_lt _ (by norm_num)

theorem sha256_bytes_lt (msg : List Nat) : ∀ b ∈ sha256 msg, b < 256 := by
  intro b hb
  unfold sha256 at hb
  simp only [List.mem_append] at hb
  rcases hb with ((((((h | h) | h) | h) | h) | h) | h) | h <;> exact be32bytes_lt _ b h

theorem hmacSha256_bytes_lt (key msg : List Nat) : ∀ b ∈ hmacSha256 key msg, b < 256 := by
  intro b hb
  unfold hmacSha256 at hb
  exact sha256_bytes_lt _ b hb

/-- Counterexample to C4 as stated: a header that differs from the
canonical lowercase one in exactly one byte — `Dc46…` instead of `dc46…` —
is nonetheless accepted, because the `hex` crate decodes both digit
cases; so acceptance is not equivalent to byte-equality with
`"sha256=" + lowerhex(HMAC)`. -/
theorem webhook_signature_uppercase_counterexample :
    (githubWebhookAccepts "secret"
       (some ("sha256=Dc46983557fea127b43af721467eb9b3fde2338fe3e14f51952aa8478c13d355".toList))
       (strBytes "body") = true)
    ∧ ("sha256=Dc46983557fea127b43af721467eb9b3fde2338fe3e14f51952aa8478c13d355".toList ≠
        sigMarker ++ lowerHex (hmacSha256 (strBytes "secret") (strBytes "body"))) := by
  set_option maxRecDepth 1000000 in decide

/-- **C4** (amended) — Webhook signature gating: a request is accepted
past authentication iff its `X-Hub-Signature-256` header is present and
consists of the literal `"sha256="` followed by an even-length hex string
— digits of either case — that decodes to exactly the bytes of
`HMAC-SHA256(secret, body)`; in particular the canonical lowercase header
is always accepted, and a missing header or any header whose decoded
bytes differ (or that is malformed) yields 401. -/
theorem webhook_signature_gating :
    ∀ (secret : String) (body : List Nat) (header : Option (List Char)),
      (githubWebhookAccepts secret header body = true ↔
        ∃ hx, header = some (sigMarker ++ hx) ∧
          hexDecode hx = some (hmacSha256 (strBytes secret) body))
      ∧ (githubWebhookAccepts secret
          (some (sigMarker ++ lowerHex (hmacSha256 (strBytes secret) body))) body
            = true) := by
  intro secret body header
  constructor
  · cases header with
    | none => simp [githubWebhookAccepts]
    | some h =>
        show verifyGithubSignature secret body h = true ↔ _
        unfold verifyGithubSignature
        rcases hs : stripPre sigMarker h with _ | hx
        · constructor
          · intro hcontr
            exact Bool.noConfusion hcontr
          · rintro ⟨hx, heq, _⟩
            have hsx : stripPre sigMarker h = some hx :=
              (stripPre_iff _ _ _).mpr (Option.some.inj heq)
            rw [hs] at hsx
            exact Option.noConfusion hsx
        · show (match hexDecode hx with
                | none => false
                | some sigBytes => sigBytes == hmacSha256 (strBytes secret) body) = true ↔
            ∃ hx', some h = some (sigMarker ++ hx') ∧
              hexDecode hx' = some (hmacSha256 (strBytes secret) body)
          rcases hd : hexDecode hx with _ | bs
          · constructor
            · intro hcontr
              exact Bool.noConfusion hcontr
            · rintro ⟨hx', heq, hdec⟩
              have hsx : stripPre sigMarker h = some hx' :=
                (stripPre_iff _ _ _).mpr (Option.some.inj heq)
              rw [hs] at hsx
              rw [← Option.some.inj hsx, hd] at hdec
              exact Option.noConfusion hdec
          · constructor
            · intro hbeq
              have hb : bs = hmacSha256 (strBytes secret) body :=
                beq_iff_eq.mp hbeq
              exact ⟨hx, by rw [(stripPre_iff sigMarker h hx).mp hs], by rw [hd, hb]⟩
            · rintro ⟨hx', heq, hdec⟩
              have hsx : stripPre sigMarker h = some hx' :=
                (stripPre_iff _ _ _).mpr (Option.some.inj heq)
              rw [hs] at hsx
              rw [← Option.some.inj hsx, hd] at hdec
              show (bs == hmacSha256 (strBytes secret) body) = true
              exact beq_iff_eq.mpr (Option.some.inj hdec)
  · show verifyGithubSignature secret body
      (sigMarker ++ lowerHex (hmacSha256 (strBytes secret) body)) = true
    unfold verifyGithubSignature
    rw [(stripPre_iff sigMarker
          (sigMarker ++ lowerHex (hmacSha256 (strBytes secret) body))
          (lowerHex (hmacSha256 (strBytes secret) body))).mpr rfl]
    show (match hexDecode (lowerHex (hmacSha256 (strBytes secret) body)) with
          | none => false
          | some sigBytes => sigBytes == hmacSha256 (strBytes secret) body) = true
    rw [hexDecode_lowerHex _ (hmacSha256_bytes_lt _ _)]
    exact beq_self_eq_true _

end Foundry



